import Mathlib

/-!
Verification of the RhettAI repository: a shallow embedding, in Lean 4, of
the drive change detector (`src/drive/monitor.py`), the content store
(`src/database/content_db.py`), the coordinator skip rule
(`src/processor/content_processor.py`), and the startup check (`main.py`),
together with theorems settling the specification's claims about them.

Modelling conventions:
* Python timezone-aware datetimes (ISO strings parsed with
  `datetime.fromisoformat` after the `Z` → `+00:00` rewrite) are modelled by
  `Timestamp`, a wall-clock value with an explicit UTC offset; comparison of
  aware datetimes compares the normalized instants.
* Database timestamps inside the content store are modelled as integer
  instants; SQL `ORDER BY` is modelled by a stable insertion sort
  (`sortBy`), row order in a table being insertion order.
* `zlib.compress`/`zlib.decompress` is an external library; the store model
  is parametric in the compressed representation `β` and the pair
  `compress`/`decompress`, and the zlib round-trip contract appears as an
  explicit hypothesis where a claim needs it.
* Python's `hash(str(content))` and `os.path.getsize` are modelled by a
  function parameter `cHash` and an integer parameter `fileSize`: both are
  deterministic for a fixed environment, which is all the claims use.
* The SQL transaction in `store_file` is modelled by a statement script
  (`Stmt`) executed against a pending state, with `commit` publishing the
  pending state; a failure after `k` statements rolls back to the last
  committed state, which is exactly psycopg2's `conn.rollback()` semantics.
-/

namespace RhettAI

/-! ## Timestamps with explicit offsets (drive monitor) -/

/-- A timezone-aware timestamp: wall-clock value plus UTC offset, both in
seconds. Models Python's aware `datetime` as produced by
`datetime.fromisoformat(s.replace('Z', '+00:00'))` in `monitor.py`. -/
structure Timestamp where
  wall : Int
  offset : Int
deriving DecidableEq, Repr

/-- The absolute instant a timestamp denotes; aware datetimes compare by
instant, which is the time-zone normalization the monitor performs. -/
def instant (t : Timestamp) : Int := t.wall - t.offset

/-! ## Drive monitor (`src/drive/monitor.py`) -/

/-- One item of a remote folder listing, as returned by
`service.files().list` with fields `id, name, mimeType, modifiedTime`. -/
structure DriveFile where
  id : String
  name : String
  mimeType : String
  modifiedTime : Timestamp
deriving DecidableEq, Repr

/-- Python truthiness of `self.last_check`: `None` and the empty list are
both falsy, so `if not self.last_check` fires for either. -/
def pyFalsy : Option (List DriveFile) → Bool
  | none => true
  | some [] => true
  | some (_ :: _) => false

/-- The monitor's per-item test inside `check_for_updates`: an item is new
when no entry of the previous listing has its id (`next(..., None)` finds
the first match), and modified when the first matching entry's normalized
modified time is strictly earlier than the current one. -/
def isNewOrModified (lastCheck : List DriveFile) (f : DriveFile) : Bool :=
  match lastCheck.find? (fun g => g.id == f.id) with
  | none => true
  | some g => decide (instant g.modifiedTime < instant f.modifiedTime)

/-- `DriveMonitor.check_for_updates`, given the stored `last_check` and the
freshly fetched listing: on a falsy `last_check` every current item is
returned and the snapshot seeded; otherwise the current items passing
`isNewOrModified` are returned and the snapshot replaced by the fresh
listing. Returns (new snapshot, change set). -/
def checkForUpdates (lastCheck : Option (List DriveFile)) (current : List DriveFile) :
    Option (List DriveFile) × List DriveFile :=
  if pyFalsy lastCheck then
    (some current, current)
  else
    (some current, current.filter (isNewOrModified (lastCheck.getD [])))

/-- `DriveMonitor.get_folder_contents`: the API call either yields a listing
or raises; the `except` clause prints the error and returns the empty
list, so the caller cannot distinguish a failure from an empty folder. -/
def getFolderContents (fetchResult : Except String (List DriveFile)) : List DriveFile :=
  match fetchResult with
  | .ok files => files
  | .error _ => []

/-- One full poll: `check_for_updates` applied to whatever
`get_folder_contents` produced for this cycle. -/
def checkForUpdatesRun (lastCheck : Option (List DriveFile))
    (fetchResult : Except String (List DriveFile)) :
    Option (List DriveFile) × List DriveFile :=
  checkForUpdates lastCheck (getFolderContents fetchResult)

/-! ## A stable sort modelling SQL ORDER BY -/

/-- Insert `x` before the first element `y` with `le x y`; used by `sortBy`.
With a total `le` this places `x` before every element it ties with that
originally came later, giving a stable sort. -/
def insertBy (le : α → α → Bool) (x : α) : List α → List α
  | [] => [x]
  | y :: ys => if le x y then x :: y :: ys else y :: insertBy le x ys

/-- Stable insertion sort: the deterministic model of `ORDER BY`, under
which rows with equal keys keep their table (insertion) order. -/
def sortBy (le : α → α → Bool) : List α → List α
  | [] => []
  | x :: xs => insertBy le x (sortBy le xs)

/-- Descending comparison on an integer sort key: `a` may come before `b`
when `b`'s key is at most `a`'s. Models `ORDER BY key DESC`. -/
def descBy (k : α → Int) : α → α → Bool := fun a b => decide (k b ≤ k a)

/-! ## Content store (`src/database/content_db.py`)

The model is parametric in the compressed representation `β` and in
`compress : String → β` (the store calls `zlib.compress` on UTF-8 text);
`decompress : β → String` appears where reads need it. Database
timestamps are integer instants. -/

/-- One extracted unit as passed to `store_file` inside
`file_data['content']['content']`: an optional slide number, an optional
page number, and the unit's text. -/
structure ContentItem where
  slide_number : Option Int
  page_number : Option Int
  text : String
deriving DecidableEq, Repr

/-- The `file_data['content']` payload: extraction kind, totals, and the
ordered unit list. -/
structure ContentPayload where
  ctype : String
  total_slides : Option Int
  total_pages : Option Int
  content : List ContentItem
deriving DecidableEq, Repr

/-- The `file_data` dictionary handed to `store_file` by the processor. -/
structure FileData where
  file_id : String
  file_name : String
  modified_time : Int
  processed_time : Int
  content : ContentPayload
deriving DecidableEq, Repr

/-- A row of the `files` table. -/
structure FileRow where
  file_id : String
  file_name : String
  file_type : String
  modified_time : Int
  processed_time : Int
  total_slides : Option Int
  total_pages : Option Int
  file_size : Int
  content_hash : String
  status : String
  created_at : Int
  updated_at : Int
deriving DecidableEq, Repr

/-- A row of the `content` table. The `SERIAL id` and `created_at` columns
are omitted: no claim observes them. -/
structure ContentRow (β : Type) where
  file_id : String
  slide_number : Option Int
  page_number : Option Int
  text_compressed : β
  text_length : Nat
  content_type : String
  text_uncompressed : String
deriving DecidableEq, Repr

/-- The database: both tables, rows in insertion order. -/
structure DBState (β : Type) where
  files : List FileRow
  content : List (ContentRow β)
deriving DecidableEq, Repr

/-- The `DO UPDATE` arm of the file-row upsert: a row with the conflicting
key is rewritten in place from `file_data` (leaving `status` and
`created_at` untouched), any other row is kept. `cHash` models
`str(hash(str(content)))`, `fileSize` models `os.path.getsize`, `now`
models `CURRENT_TIMESTAMP`. -/
def updateFileRow (cHash : ContentPayload → String) (fileSize : Int) (now : Int)
    (fd : FileData) (r : FileRow) : FileRow :=
  if r.file_id == fd.file_id then
    { r with
      file_name := fd.file_name
      file_type := fd.content.ctype
      modified_time := fd.modified_time
      processed_time := fd.processed_time
      total_slides := fd.content.total_slides
      total_pages := fd.content.total_pages
      file_size := fileSize
      content_hash := cHash fd.content
      updated_at := now }
  else r

/-- The row inserted when no row with the key exists: `status` and
`created_at` come from the column defaults. -/
def newFileRow (cHash : ContentPayload → String) (fileSize : Int) (now : Int)
    (fd : FileData) : FileRow :=
  { file_id := fd.file_id
    file_name := fd.file_name
    file_type := fd.content.ctype
    modified_time := fd.modified_time
    processed_time := fd.processed_time
    total_slides := fd.content.total_slides
    total_pages := fd.content.total_pages
    file_size := fileSize
    content_hash := cHash fd.content
    status := "active"
    created_at := now
    updated_at := now }

/-- The `INSERT ... ON CONFLICT (file_id) DO UPDATE` statement of
`store_file`: update the existing row in place if the key is present,
otherwise append a fresh row with the column defaults. -/
def upsertFileRow (cHash : ContentPayload → String) (fileSize : Int) (now : Int)
    (fd : FileData) (files : List FileRow) : List FileRow :=
  if files.any (fun r => r.file_id == fd.file_id) then
    files.map (updateFileRow cHash fileSize now fd)
  else
    files ++ [newFileRow cHash fileSize now fd]

/-- The `content` row inserted for one unit: compressed text, character
length of the plain text, the payload's type, and the plain text itself. -/
def unitRow (compress : String → β) (fd : FileData) (item : ContentItem) :
    ContentRow β :=
  { file_id := fd.file_id
    slide_number := item.slide_number
    page_number := item.page_number
    text_compressed := compress item.text
    text_length := item.text.length
    content_type := fd.content.ctype
    text_uncompressed := item.text }

/-- `ContentDatabase.store_file` run to successful commit: upsert the file
row, delete every `content` row of this `file_id`, then insert the new
units in payload order. -/
def storeFile (compress : String → β) (cHash : ContentPayload → String)
    (fileSize : Int) (now : Int) (s : DBState β) (fd : FileData) : DBState β :=
  { files := upsertFileRow cHash fileSize now fd s.files
    content := s.content.filter (fun r => !(r.file_id == fd.file_id))
      ++ fd.content.content.map (unitRow compress fd) }

/-! ### The transaction script of `store_file`

Atomicity of the claim is settled against an explicit statement script: the
SQL statements run against a transaction-local pending state, and only
`commit` publishes it. A failure after `k` statements triggers
`conn.rollback()`, leaving the committed state as what a subsequent reader
sees. -/

/-- One step of a database session: an ordinary statement transforming the
pending state, or a commit publishing it. -/
inductive Stmt (σ : Type) where
  | exec : (σ → σ) → Stmt σ
  | commit : Stmt σ

/-- A session's view: the last committed state (what other readers, and a
reader after rollback, see) and the transaction-local pending state. -/
structure TxState (σ : Type) where
  committed : σ
  pending : σ

/-- Run a statement list: `exec f` changes only the pending state, `commit`
publishes it. -/
def runStmts : List (Stmt σ) → TxState σ → TxState σ
  | [], t => t
  | .exec f :: rest, t => runStmts rest { t with pending := f t.pending }
  | .commit :: rest, t => runStmts rest { committed := t.pending, pending := t.pending }

/-- Visible state after a failure that aborts the session once the first
`k` statements have run: the rollback discards the pending state, so a
subsequent read sees the committed one. -/
def runWithFailure (stmts : List (Stmt σ)) (s : σ) (k : Nat) : σ :=
  (runStmts (stmts.take k) { committed := s, pending := s }).committed

/-- Visible state after the whole statement list runs without failure. -/
def runAll (stmts : List (Stmt σ)) (s : σ) : σ :=
  (runStmts stmts { committed := s, pending := s }).committed

/-- The SQL statements `store_file` issues before its commit: the file-row
upsert, the `DELETE FROM content WHERE file_id = %s`, and one `INSERT` per
unit, in payload order. -/
def storeFileFront (compress : String → β) (cHash : ContentPayload → String)
    (fileSize : Int) (now : Int) (fd : FileData) : List (Stmt (DBState β)) :=
  Stmt.exec (fun s => { s with files := upsertFileRow cHash fileSize now fd s.files }) ::
  Stmt.exec (fun s => { s with content := s.content.filter (fun r => !(r.file_id == fd.file_id)) }) ::
  fd.content.content.map (fun item =>
    Stmt.exec (fun s => { s with content := s.content ++ [unitRow compress fd item] }))

/-- The statement script `store_file` issues inside one transaction: the
pre-commit statements followed by the single final `conn.commit()`. -/
def storeFileScript (compress : String → β) (cHash : ContentPayload → String)
    (fileSize : Int) (now : Int) (fd : FileData) : List (Stmt (DBState β)) :=
  storeFileFront compress cHash fileSize now fd ++ [Stmt.commit]

/-! ### Reads -/

/-- Ascending comparison on the `COALESCE(slide_number, page_number)` sort
key, with SQL's default `NULLS LAST` for ascending order. -/
def nullsLastLE : Option Int → Option Int → Bool
  | some a, some b => decide (a ≤ b)
  | some _, none => true
  | none, some _ => false
  | none, none => true

/-- The `COALESCE(slide_number, page_number)` key of a content row. -/
def rowOrd (r : ContentRow β) : Option Int :=
  match r.slide_number with
  | some n => some n
  | none => r.page_number

/-- One unit in a `get_file` response. -/
structure UnitOut where
  slide_number : Option Int
  page_number : Option Int
  text : String
deriving DecidableEq, Repr

/-- A `get_file` response: file metadata plus the ordered unit list. -/
structure GetFileOut where
  file_id : String
  file_name : String
  file_type : String
  modified_time : Int
  processed_time : Int
  total_slides : Option Int
  total_pages : Option Int
  content : List UnitOut
deriving DecidableEq, Repr

/-- `ContentDatabase.get_file`: `None` when no `files` row has the id;
otherwise the metadata and the `content` rows of the id ordered by
`COALESCE(slide_number, page_number)`, each unit's text obtained by
decompressing `text_compressed`. -/
def getFile (decompress : β → String) (s : DBState β) (fid : String) :
    Option GetFileOut :=
  match s.files.find? (fun r => r.file_id == fid) with
  | none => none
  | some fr =>
    let rows := sortBy (fun a b => nullsLastLE (rowOrd a) (rowOrd b))
      (s.content.filter (fun r => r.file_id == fid))
    some {
      file_id := fr.file_id
      file_name := fr.file_name
      file_type := fr.file_type
      modified_time := fr.modified_time
      processed_time := fr.processed_time
      total_slides := fr.total_slides
      total_pages := fr.total_pages
      content := rows.map (fun r =>
        { slide_number := r.slide_number
          page_number := r.page_number
          text := decompress r.text_compressed }) }

/-! ### Full-text search

The tokenized/stemmed matching of
`to_tsvector('english', c.text_uncompressed) @@ plainto_tsquery('english', %s)`
is an engine capability; the model is parametric in a match predicate
`tsMatch : query → text → Bool` applied, as the SQL does, to
`text_uncompressed` only. -/

/-- One match entry built by `search_content` from a result row: the
ordinals and the row's `text_uncompressed` (search never decompresses). -/
structure SearchMatch where
  slide_number : Option Int
  page_number : Option Int
  text : String
deriving DecidableEq, Repr

/-- One grouped entry of a `search_content` result; `hits` models the
Python dict's `matches` list (`matches` is a Lean keyword). -/
structure SearchFileResult where
  file_id : String
  file_name : String
  hits : List SearchMatch
deriving DecidableEq, Repr

/-- The match entry built from a content row. -/
def mkMatch (c : ContentRow β) : SearchMatch :=
  { slide_number := c.slide_number
    page_number := c.page_number
    text := c.text_uncompressed }

/-- The join-and-match step for one content row: pair it with its `files`
row and keep it when its uncompressed text matches the query. -/
def joinRow (tsMatch : String → String → Bool) (files : List FileRow) (q : String)
    (c : ContentRow β) : Option (FileRow × ContentRow β) :=
  match files.find? (fun f => f.file_id == c.file_id) with
  | some f => if tsMatch q c.text_uncompressed then some (f, c) else none
  | none => none

/-- The rows produced by the search query before ordering: the join of
`files` and `content` on `file_id` (content rows in table order, each
paired with its unique `files` row), restricted to rows whose uncompressed
text matches the query. -/
def matchRows (tsMatch : String → String → Bool) (s : DBState β) (q : String) :
    List (FileRow × ContentRow β) :=
  s.content.filterMap (joinRow tsMatch s.files q)

/-- The accumulation loop of `search_content`: rows extend the current
group while their `file_id` equals the current one, and start a new group
otherwise; the current group is flushed at the end. -/
def groupGo (cur : SearchFileResult) : List (FileRow × ContentRow β) → List SearchFileResult
  | [] => [cur]
  | (f, c) :: rest =>
    if cur.file_id == f.file_id then
      groupGo { cur with hits := cur.hits ++ [mkMatch c] } rest
    else
      cur :: groupGo { file_id := f.file_id, file_name := f.file_name, hits := [mkMatch c] } rest

/-- Grouping of the ordered result rows, exactly as the Python loop with
its `current_file` accumulator does it. -/
def groupRows : List (FileRow × ContentRow β) → List SearchFileResult
  | [] => []
  | (f, c) :: rest =>
    groupGo { file_id := f.file_id, file_name := f.file_name, hits := [mkMatch c] } rest

/-- `ContentDatabase.search_content`: the matching join rows ordered by
`f.modified_time DESC`, then grouped by consecutive `file_id`. -/
def searchContent (tsMatch : String → String → Bool) (s : DBState β) (q : String) :
    List SearchFileResult :=
  groupRows (sortBy (descBy (fun p : FileRow × ContentRow β => p.1.modified_time))
    (matchRows tsMatch s q))

/-- Reference formulation of the search contract, following the spec's
words as amended: files in recency (modified time, descending) order; for
each file, its matching units in storage order; files without matches
omitted. The spec's original demand of ascending ordinal order within a
file is what the counterexample refutes. -/
def searchSpecAmended (tsMatch : String → String → Bool) (s : DBState β) (q : String) :
    List SearchFileResult :=
  ((sortBy (descBy (fun f : FileRow => f.modified_time)) s.files).map (fun f =>
    { file_id := f.file_id
      file_name := f.file_name
      hits := (s.content.filter (fun c =>
        c.file_id == f.file_id && tsMatch q c.text_uncompressed)).map mkMatch })).filter (fun r => !r.hits.isEmpty)

/-- Rewrite every row's compressed payload, leaving everything else alone;
used to state that search never evaluates the compressed form. -/
def mapCompressed (g : β → β) (s : DBState β) : DBState β :=
  { files := s.files
    content := s.content.map (fun c => { c with text_compressed := g c.text_compressed }) }

/-! ## Coordinator skip rule (`src/processor/content_processor.py`) -/

/-- One entry of the processor's `metadata.json`: the stored modified-time
string recorded for a processed file id. -/
structure ProcMetaEntry where
  file_id : String
  modified_time : String
deriving DecidableEq, Repr

/-- The up-to-date test of `ContentProcessor.process_file`: the file id is
in the metadata and the stored modified-time string equals the remote one
(Python compares the two ISO strings with `==`). -/
def shouldSkip (metadata : List ProcMetaEntry) (fileId remoteModified : String) : Bool :=
  match metadata.find? (fun e => e.file_id == fileId) with
  | some e => e.modified_time == remoteModified
  | none => false

/-- The processor's persistent state: the metadata map and, per file id,
the serialized processed content written to `<file_id>.json`. -/
structure ProcState where
  metadata : List ProcMetaEntry
  stored : List (String × String)
deriving DecidableEq, Repr

/-- Insert-or-replace for the metadata list, keyed by file id. -/
def upsertMeta (metadata : List ProcMetaEntry) (fileId remoteModified : String) :
    List ProcMetaEntry :=
  if metadata.any (fun e => e.file_id == fileId) then
    metadata.map (fun e =>
      if e.file_id == fileId then { e with modified_time := remoteModified } else e)
  else
    metadata ++ [{ file_id := fileId, modified_time := remoteModified }]

/-- Insert-or-replace for the stored-content list, keyed by file id. -/
def upsertStored (stored : List (String × String)) (fileId content : String) :
    List (String × String) :=
  if stored.any (fun e => e.1 == fileId) then
    stored.map (fun e => if e.1 == fileId then (e.1, content) else e)
  else
    stored ++ [(fileId, content)]

/-- `ContentProcessor.process_file` (the `content_processor.py` variant):
skip — returning `None` and leaving all state untouched — exactly when
`shouldSkip` holds; otherwise extract (`extracted` abstracts the
serialized extraction result), write the JSON file and update the
metadata, returning the processed content. -/
def processFile (ps : ProcState) (fileId remoteModified extracted : String) :
    ProcState × Option String :=
  if shouldSkip ps.metadata fileId remoteModified then
    (ps, none)
  else
    ({ metadata := upsertMeta ps.metadata fileId remoteModified
       stored := upsertStored ps.stored fileId extracted }, some extracted)

/-! ## Startup (`main.py`) -/

/-- Outcome of running the `main.py` script as a process. -/
structure StartupOutcome where
  exitCode : Nat
  enteredPollLoop : Bool
deriving DecidableEq, Repr

/-- The startup path of `main()`: when `GOOGLE_DRIVE_FOLDER_ID` is unset
(or set to the empty string, which Python's `if not folder_id` also
treats as missing), the function prints an error and returns, so the
script finishes normally — exit status 0 — without entering the poll loop.
With a folder id present the poll loop is entered, and every later exit
path of `main` also returns normally (exceptions are caught and printed),
so the script's exit status is 0 throughout. -/
def mainStartup : Option String → StartupOutcome
  | none => { exitCode := 0, enteredPollLoop := false }
  | some fid =>
    if fid = "" then { exitCode := 0, enteredPollLoop := false }
    else { exitCode := 0, enteredPollLoop := true }

/-! ## Spec-side predicates and observation projections -/

/-- The spec's membership condition for the change set: the item's id was
absent from the previous snapshot, or present with a strictly earlier
normalized modified time. -/
def specChangeCond (prev : List DriveFile) (f : DriveFile) : Prop :=
  (∀ g ∈ prev, g.id ≠ f.id) ∨
    ∃ g ∈ prev, g.id = f.id ∧ instant g.modifiedTime < instant f.modifiedTime

/-- A file row with its `updated_at` forgotten: the observable file
metadata of the idempotence claim, under which only `updated_at` may
differ between one and two upserts. -/
def fileRowObs (r : FileRow) : FileRow := { r with updated_at := 0 }

/-- The ordinal of a returned unit, `COALESCE(slide_number, page_number)`
on the output side. -/
def unitOrd (u : UnitOut) : Option Int :=
  match u.slide_number with
  | some n => some n
  | none => u.page_number

/-- Cross-column consistency of one stored unit row: the compressed text
decompresses to the plain projection, whose length is `text_length`. -/
def rowInv (decompress : β → String) (r : ContentRow β) : Prop :=
  decompress r.text_compressed = r.text_uncompressed ∧
    r.text_length = r.text_uncompressed.length

/-! ## Concrete inputs for witnesses and counterexamples -/

/-- A snapshot entry: item `X` last seen modified at instant 10. -/
def exPrevItem : DriveFile :=
  { id := "X", name := "lecture.pptx", mimeType := "application/pdf"
    modifiedTime := { wall := 10, offset := 0 } }

/-- The same item reported by a fresh poll at instant 11. -/
def exCurItemX : DriveFile :=
  { id := "X", name := "lecture.pptx", mimeType := "application/pdf"
    modifiedTime := { wall := 11, offset := 0 } }

/-- A brand-new item appearing in the fresh poll. -/
def exCurItemY : DriveFile :=
  { id := "Y", name := "notes.pdf", mimeType := "application/pdf"
    modifiedTime := { wall := 5, offset := 0 } }

/-- A processor state that already processed `f1` at the later time
`2024-01-02`; a poll then reports the older `2024-01-01`. -/
def exProcState : ProcState :=
  { metadata := [{ file_id := "f1", modified_time := "2024-01-02T00:00:00Z" }]
    stored := [("f1", "old-content")] }

/-- A file row used by the store examples. -/
def exFileRow : FileRow :=
  { file_id := "F", file_name := "deck.pptx", file_type := "presentation"
    modified_time := 50, processed_time := 60
    total_slides := some 2, total_pages := none
    file_size := 7, content_hash := "h", status := "active"
    created_at := 1, updated_at := 1 }

/-- A store whose two units for `F` were inserted out of ordinal order
(slide 2 first), with the compressed representation taken to be the text
itself. Both texts start with the search token `apple`. -/
def exDb : DBState String :=
  { files := [exFileRow]
    content :=
      [ { file_id := "F", slide_number := some 2, page_number := none
          text_compressed := "apple beta", text_length := 10
          content_type := "presentation", text_uncompressed := "apple beta" }
      , { file_id := "F", slide_number := some 1, page_number := none
          text_compressed := "apple alpha", text_length := 11
          content_type := "presentation", text_uncompressed := "apple alpha" } ] }

/-- The `get_file` response for `exDb`. -/
def exGetOut : GetFileOut :=
  { file_id := "F", file_name := "deck.pptx", file_type := "presentation"
    modified_time := 50, processed_time := 60
    total_slides := some 2, total_pages := none
    content :=
      [ { slide_number := some 1, page_number := none, text := "apple alpha" }
      , { slide_number := some 2, page_number := none, text := "apple beta" } ] }

/-- A `file_data` payload with two slides, used by the store witnesses. -/
def exFd : FileData :=
  { file_id := "F", file_name := "deck.pptx"
    modified_time := 50, processed_time := 60
    content :=
      { ctype := "presentation", total_slides := some 2, total_pages := none
        content :=
          [ { slide_number := some 1, page_number := none, text := "Intro" }
          , { slide_number := some 2, page_number := none, text := "Methods" } ] } }

/-- A trivial hash model for witnesses: Python's `hash` is deterministic,
which is all the claims rely on. -/
def exHash (p : ContentPayload) : String := toString p.content.length

/-- A second file row sharing `exFileRow`'s `modified_time` of 50. -/
def exFileRowB : FileRow :=
  { file_id := "B", file_name := "notes.pdf", file_type := "document"
    modified_time := 50, processed_time := 61
    total_slides := none, total_pages := some 1
    file_size := 3, content_hash := "h2", status := "active"
    created_at := 2, updated_at := 2 }

/-- A store with two files tied on `modified_time` whose unit rows are
interleaved in the table: a row of `F`, then the row of `B`, then the
second row of `F`. All three texts match the query `apple`. -/
def exTieDb : DBState String :=
  { files := [exFileRow, exFileRowB]
    content :=
      [ { file_id := "F", slide_number := some 1, page_number := none
          text_compressed := "apple alpha", text_length := 11
          content_type := "presentation", text_uncompressed := "apple alpha" }
      , { file_id := "B", slide_number := none, page_number := some 1
          text_compressed := "apple notes", text_length := 11
          content_type := "document", text_uncompressed := "apple notes" }
      , { file_id := "F", slide_number := some 2, page_number := none
          text_compressed := "apple beta", text_length := 10
          content_type := "presentation", text_uncompressed := "apple beta" } ] }

/-! # Theorems

Generic facts about the `ORDER BY` model, then the claim theorems. -/

theorem perm_insertBy (le : α → α → Bool) (x : α) (l : List α) :
    List.Perm (insertBy le x l) (x :: l) := by
  induction l with
  | nil => simp [insertBy]
  | cons y ys ih =>
    by_cases h : le x y
    · simp [insertBy, h]
    · simp only [insertBy, h, Bool.false_eq_true, if_false]
      exact (ih.cons y).trans (List.Perm.swap x y ys)

theorem perm_sortBy (le : α → α → Bool) (l : List α) :
    List.Perm (sortBy le l) l := by
  induction l with
  | nil => rfl
  | cons x xs ih => exact (perm_insertBy le x (sortBy le xs)).trans (ih.cons x)

theorem pairwise_insertBy (le : α → α → Bool)
    (htot : ∀ a b, le a b = true ∨ le b a = true)
    (htrans : ∀ a b c, le a b = true → le b c = true → le a c = true)
    (x : α) (l : List α) (hl : l.Pairwise (fun a b => le a b = true)) :
    (insertBy le x l).Pairwise (fun a b => le a b = true) := by
  induction l with
  | nil => simp [insertBy]
  | cons y ys ih =>
    rcases hl with _ | ⟨hy, hys⟩
    by_cases h : le x y
    · simp only [insertBy, h, if_true]
      refine List.Pairwise.cons ?_ (List.Pairwise.cons hy hys)
      intro b hb
      simp only [List.mem_cons] at hb
      rcases hb with rfl | hb
      · exact h
      · exact htrans x y b h (hy b hb)
    · simp only [insertBy, h, Bool.false_eq_true, if_false]
      refine List.Pairwise.cons ?_ (ih hys)
      intro b hb
      have hb' := (perm_insertBy le x ys).mem_iff.mp hb
      simp only [List.mem_cons] at hb'
      rcases hb' with rfl | hb'
      · rcases htot y b with hyb | hby
        · exact hyb
        · simp [h] at hby
      · exact hy b hb'

theorem pairwise_sortBy (le : α → α → Bool)
    (htot : ∀ a b, le a b = true ∨ le b a = true)
    (htrans : ∀ a b c, le a b = true → le b c = true → le a c = true)
    (l : List α) : (sortBy le l).Pairwise (fun a b => le a b = true) := by
  induction l with
  | nil => exact List.Pairwise.nil
  | cons x xs ih => exact pairwise_insertBy le htot htrans x (sortBy le xs) ih

theorem descBy_total (k : α → Int) (a b : α) :
    descBy k a b = true ∨ descBy k b a = true := by
  simp only [descBy, decide_eq_true_eq]
  exact Int.le_total (k b) (k a)

theorem descBy_trans (k : α → Int) (a b c : α) :
    descBy k a b = true → descBy k b c = true → descBy k a c = true := by
  simp only [descBy, decide_eq_true_eq]
  exact fun h1 h2 => le_trans h2 h1

theorem filter_key_insertBy (k : α → Int) (x : α) (l : List α) (t : Int) :
    (insertBy (descBy k) x l).filter (fun a => decide (k a = t))
      = if k x = t then x :: l.filter (fun a => decide (k a = t))
        else l.filter (fun a => decide (k a = t)) := by
  induction l with
  | nil =>
    by_cases hx : k x = t <;> simp [insertBy, List.filter, hx]
  | cons y ys ih =>
    by_cases hle : descBy k x y
    · simp only [insertBy, hle, if_true]
      by_cases hx : k x = t <;> simp [List.filter, hx]
    · simp only [insertBy, hle, Bool.false_eq_true, if_false]
      have hlt : k x < k y := by
        simp only [descBy, decide_eq_true_eq] at hle
        omega
      by_cases hx : k x = t
      · have hy : ¬ (k y = t) := by omega
        simp [List.filter, hx, hy, ih]
      · by_cases hy : k y = t <;> simp [List.filter, hx, hy, ih]

/-- Stability of the `ORDER BY key DESC` model: the rows carrying any fixed
key value appear in the sorted list exactly in their original order. -/
theorem filter_key_sortBy (k : α → Int) (l : List α) (t : Int) :
    (sortBy (descBy k) l).filter (fun a => decide (k a = t))
      = l.filter (fun a => decide (k a = t)) := by
  induction l with
  | nil => rfl
  | cons x xs ih =>
    by_cases hx : k x = t <;>
      simp [sortBy, filter_key_insertBy, List.filter, hx, ih]

/-! ## Change detector claims -/

/-- C8: on the very first poll, when no prior snapshot exists, the monitor
returns every item of the current remote listing as new — the change set is
the listing itself, independent of any timestamp — and seeds the snapshot
with it. -/
theorem firstPoll_reports_all (current : List DriveFile) :
    checkForUpdates none current = (some current, current) := rfl

/-- C3 (code_bug evaluation): when fetching the listing fails on a poll
that has a prior snapshot, `get_folder_contents` swallows the exception and
returns `[]`, so `check_for_updates` replaces the stored snapshot — here
`[X]` — with the empty list and returns an empty change set: the failure is
reported as "zero changes" and the snapshot is not left untouched,
contradicting the claim. -/
theorem fetchFailure_clobbers_snapshot :
    checkForUpdatesRun (some [exPrevItem]) (Except.error "HttpError 500") = (some [], [])
    ∧ some [] ≠ some [exPrevItem] := by
  exact ⟨rfl, by decide⟩

/-- C9 (code_bug evaluation): with `GOOGLE_DRIVE_FOLDER_ID` missing (or
empty, which Python's truthiness test treats the same), `main` prints an
error and returns normally, so the process never enters the poll loop but
finishes with exit status 0 — not the non-zero status the claim
requires. -/
theorem missingFolder_exits_zero :
    mainStartup none = { exitCode := 0, enteredPollLoop := false }
    ∧ mainStartup (some "") = { exitCode := 0, enteredPollLoop := false }
    ∧ (mainStartup none).exitCode = 0 := by
  exact ⟨rfl, rfl, rfl⟩

theorem eq_of_pairwise_key {α γ : Type _} {k : α → γ} {l : List α}
    (h : l.Pairwise (fun a b => k a ≠ k b)) {a b : α}
    (ha : a ∈ l) (hb : b ∈ l) (hk : k a = k b) : a = b := by
  induction l with
  | nil => cases ha
  | cons x xs ih =>
    rcases h with _ | ⟨hx, hxs⟩
    simp only [List.mem_cons] at ha hb
    rcases ha with rfl | ha
    · rcases hb with rfl | hb
      · rfl
      · exact absurd hk (hx b hb)
    · rcases hb with rfl | hb
      · exact absurd hk.symm (hx a ha)
      · exact ih hxs ha hb

theorem isNewOrModified_iff (prev : List DriveFile)
    (hprev : prev.Pairwise (fun a b => a.id ≠ b.id)) (f : DriveFile) :
    isNewOrModified prev f = true ↔ specChangeCond prev f := by
  unfold isNewOrModified specChangeCond
  cases hfind : prev.find? (fun g => g.id == f.id) with
  | none =>
    have habs := List.find?_eq_none.mp hfind
    simp only [true_iff]
    exact Or.inl (fun g hg => by
      have := habs g hg
      simpa using this)
  | some g =>
    have hmem : g ∈ prev := List.mem_of_find?_eq_some hfind
    have hid : g.id = f.id := by
      have := List.find?_some hfind
      simpa using this
    simp only [decide_eq_true_eq]
    constructor
    · intro hlt
      exact Or.inr ⟨g, hmem, hid, hlt⟩
    · intro hcond
      rcases hcond with habs | ⟨g', hg', hid', hlt'⟩
      · exact absurd hid (habs g hmem)
      · have : g' = g := eq_of_pairwise_key hprev hg' hmem (hid'.trans hid.symm)
        exact this ▸ hlt'

theorem count_filter_eq {α : Type _} [DecidableEq α] (p : α → Bool) (a : α)
    (l : List α) :
    (l.filter p).count a = if p a = true then l.count a else 0 := by
  induction l with
  | nil => simp [List.filter]
  | cons x xs ih =>
    by_cases hx : p x
    · by_cases hax : a = x
      · subst hax
        simp [List.filter, hx, List.count_cons, ih]
      · simp [List.filter, hx, List.count_cons, hax, ih]
    · by_cases hax : a = x
      · subst hax
        simp [List.filter, hx, List.count_cons, ih]
      · simp [List.filter, hx, List.count_cons, hax, ih]

/-- C2: on a poll with a previous snapshot whose ids are distinct, an item
of the fresh listing is in the change set iff its id was absent from the
snapshot or present with a strictly earlier normalized modified time; an
item whose snapshot entry carries the identical instant contributes
nothing, and a qualifying item contributes exactly as many entries as it
has in the fresh listing — exactly one when listed once. -/
theorem changeSet_membership (prev current : List DriveFile)
    (hprev : prev.Pairwise (fun a b => a.id ≠ b.id)) :
    (∀ f, f ∈ (checkForUpdates (some prev) current).2 ↔
        f ∈ current ∧ specChangeCond prev f)
    ∧ (∀ f, (specChangeCond prev f →
          (checkForUpdates (some prev) current).2.count f = current.count f)
        ∧ (¬ specChangeCond prev f →
          (checkForUpdates (some prev) current).2.count f = 0)) := by
  cases prev with
  | nil =>
    constructor
    · intro f
      simp only [checkForUpdates, pyFalsy, if_true]
      constructor
      · intro hf
        exact ⟨hf, Or.inl (by simp)⟩
      · exact fun h => h.1
    · intro f
      constructor
      · intro _
        rfl
      · intro hnot
        exact absurd (Or.inl (by simp)) hnot
  | cons p ps =>
    have hbranch : checkForUpdates (some (p :: ps)) current
        = (some current, current.filter (isNewOrModified (p :: ps))) := rfl
    constructor
    · intro f
      rw [hbranch]
      simp only [List.mem_filter]
      rw [isNewOrModified_iff (p :: ps) hprev f]
    · intro f
      rw [hbranch]
      constructor
      · intro hcond
        rw [count_filter_eq]
        rw [if_pos ((isNewOrModified_iff (p :: ps) hprev f).mpr hcond)]
      · intro hnot
        rw [count_filter_eq]
        rw [if_neg (fun hyes => hnot ((isNewOrModified_iff (p :: ps) hprev f).mp hyes))]

/-- Witness for C2 at a concrete poll: snapshot holds `X` at instant 10,
the fresh listing reports `X` at instant 11 and a new item `Y`; both
qualify, and `X` contributes exactly one entry. -/
theorem changeSet_membership_witness :
    List.Pairwise (fun a b => a.id ≠ b.id) [exPrevItem]
    ∧ (checkForUpdates (some [exPrevItem]) [exCurItemX, exCurItemY]).2.count exCurItemX
        = [exCurItemX, exCurItemY].count exCurItemX := by
  refine ⟨by decide, ?_⟩
  exact ((changeSet_membership [exPrevItem] [exCurItemX, exCurItemY] (by decide)).2
    exCurItemX).1 (Or.inr ⟨exPrevItem, by decide, by decide, by decide⟩)

/-! ## Coordinator skip-rule claims -/

theorem shouldSkip_iff (metadata : List ProcMetaEntry) (fileId remoteModified : String) :
    shouldSkip metadata fileId remoteModified = true ↔
      (metadata.find? (fun e => e.file_id == fileId)).map (fun e => e.modified_time)
        = some remoteModified := by
  unfold shouldSkip
  cases hfind : metadata.find? (fun e => e.file_id == fileId) with
  | none => simp
  | some e => simp [Option.map_some]

/-- C4 (counterexample): the processor has `f1` recorded at
`2024-01-02T00:00:00Z`; a poll reports the strictly older
`2024-01-01T00:00:00Z`, so the stored modified time is not strictly
earlier than the remote one and the claim demands a skip with the store
unchanged — but `process_file` compares the two strings with `==`, finds
them unequal, re-extracts, returns the new content and rewrites the
store. -/
theorem processFile_older_remote_reprocesses :
    (processFile exProcState "f1" "2024-01-01T00:00:00Z" "new-content").2 = some "new-content"
    ∧ (processFile exProcState "f1" "2024-01-01T00:00:00Z" "new-content").1.stored
        ≠ exProcState.stored := by
  constructor
  · rfl
  · decide

/-- C4 (amended): `process_file` of `content_processor.py` skips — leaving
metadata and stored content untouched and returning `None` — exactly when
the metadata's stored modified-time string for the id equals the remote
`modifiedTime` string; any unequal value, in particular a strictly older
remote one, is re-processed and stored. -/
theorem processFile_skip_iff_equal (ps : ProcState) (fileId remoteModified extracted : String) :
    processFile ps fileId remoteModified extracted = (ps, none) ↔
      (ps.metadata.find? (fun e => e.file_id == fileId)).map (fun e => e.modified_time)
        = some remoteModified := by
  rw [← shouldSkip_iff]
  unfold processFile
  by_cases hskip : shouldSkip ps.metadata fileId remoteModified
  · simp [hskip]
  · simp only [hskip, Bool.false_eq_true, if_false]
    constructor
    · intro h
      exact absurd (congrArg Prod.snd h) (by simp)
    · intro h
      exact absurd h (by simp [hskip])

/-! ## Content store claims: atomicity -/

theorem runStmts_committed_of_no_commit {σ : Type} (l : List (Stmt σ))
    (h : Stmt.commit ∉ l) (t : TxState σ) :
    (runStmts l t).committed = t.committed := by
  induction l generalizing t with
  | nil => rfl
  | cons st rest ih =>
    cases st with
    | exec f => exact ih (fun hc => h (List.mem_cons_of_mem _ hc)) _
    | commit => exact absurd (List.mem_cons_self _ _) h

theorem runStmts_insert_commit (compress : String → β) (fd : FileData)
    (items : List ContentItem) (c p : DBState β) :
    runStmts
      (items.map (fun item => Stmt.exec (fun s =>
          { s with content := s.content ++ [unitRow compress fd item] }))
        ++ [Stmt.commit])
      { committed := c, pending := p }
    = { committed := { p with content := p.content ++ items.map (unitRow compress fd) }
        pending := { p with content := p.content ++ items.map (unitRow compress fd) } } := by
  induction items generalizing c p with
  | nil => simp [runStmts]
  | cons i is ih =>
    simp only [List.map_cons, List.cons_append, runStmts, List.append_eq]
    rw [ih]
    simp [List.append_assoc]

theorem runAll_storeFileScript (compress : String → β) (cHash : ContentPayload → String)
    (fileSize now : Int) (s : DBState β) (fd : FileData) :
    runAll (storeFileScript compress cHash fileSize now fd) s
      = storeFile compress cHash fileSize now s fd := by
  unfold runAll storeFileScript storeFileFront
  simp only [List.cons_append, runStmts, List.append_eq]
  rw [runStmts_insert_commit]
  rfl

theorem commit_notMem_storeFileFront (compress : String → β)
    (cHash : ContentPayload → String) (fileSize now : Int) (fd : FileData) :
    Stmt.commit ∉ storeFileFront compress cHash fileSize now fd := by
  intro hmem
  unfold storeFileFront at hmem
  simp only [List.mem_cons, List.mem_map] at hmem
  rcases hmem with h | h | ⟨_, _, h⟩ <;> exact Stmt.noConfusion h.symm

theorem commit_notMem_take_storeFileScript (compress : String → β)
    (cHash : ContentPayload → String) (fileSize now : Int) (fd : FileData)
    (k : Nat) (hk : k < (storeFileScript compress cHash fileSize now fd).length) :
    Stmt.commit ∉ (storeFileScript compress cHash fileSize now fd).take k := by
  intro hmem
  unfold storeFileScript at hmem hk
  have hk' : k ≤ (storeFileFront compress cHash fileSize now fd).length := by
    simp only [List.length_append, List.length_cons, List.length_nil] at hk
    omega
  rw [List.take_append_of_le_length hk'] at hmem
  exact commit_notMem_storeFileFront compress cHash fileSize now fd
    (List.take_subset k _ hmem)

/-- C1: the whole of `store_file` — file-row upsert, deletion of the prior
unit rows, insertion of the new unit set — commits only through the single
final `commit`; a failure after any prefix of the transaction's statements
rolls the session back to the initial state, so a subsequent `get` of the
file id returns exactly the pre-upsert content and no partial state is
ever visible. -/
theorem storeFile_atomic (compress : String → β) (decompress : β → String)
    (cHash : ContentPayload → String) (fileSize now : Int) (s : DBState β)
    (fd : FileData) (k : Nat)
    (hk : k < (storeFileScript compress cHash fileSize now fd).length) :
    runAll (storeFileScript compress cHash fileSize now fd) s
        = storeFile compress cHash fileSize now s fd
    ∧ runWithFailure (storeFileScript compress cHash fileSize now fd) s k = s
    ∧ getFile decompress
        (runWithFailure (storeFileScript compress cHash fileSize now fd) s k) fd.file_id
        = getFile decompress s fd.file_id := by
  have hroll : runWithFailure (storeFileScript compress cHash fileSize now fd) s k = s :=
    runStmts_committed_of_no_commit _
      (commit_notMem_take_storeFileScript compress cHash fileSize now fd k hk) _
  exact ⟨runAll_storeFileScript compress cHash fileSize now s fd, hroll, by rw [hroll]⟩

/-- Witness for C1: a two-slide upsert against the populated example store,
failing after the first statement, leaves the committed store exactly as it
was. -/
theorem storeFile_atomic_witness :
    1 < (storeFileScript (fun t : String => t) exHash 7 99 exFd).length
    ∧ runWithFailure (storeFileScript (fun t : String => t) exHash 7 99 exFd) exDb 1 = exDb := by
  constructor
  · simp [storeFileScript, storeFileFront, exFd]
  · exact (storeFile_atomic (fun t => t) (fun t => t) exHash 7 99 exDb exFd 1
      (by simp [storeFileScript, storeFileFront, exFd])).2.1

/-! ## Content store claims: idempotence -/

theorem updateFileRow_file_id (cHash : ContentPayload → String)
    (fileSize now : Int) (fd : FileData) (r : FileRow) :
    (updateFileRow cHash fileSize now fd r).file_id = r.file_id := by
  unfold updateFileRow
  by_cases h : r.file_id == fd.file_id <;> simp [h]

theorem any_upsertFileRow (cHash : ContentPayload → String)
    (fileSize now : Int) (fd : FileData) (files : List FileRow) :
    (upsertFileRow cHash fileSize now fd files).any
      (fun r => r.file_id == fd.file_id) = true := by
  unfold upsertFileRow
  by_cases h : files.any (fun r => r.file_id == fd.file_id)
  · rw [if_pos h]
    rcases List.any_eq_true.mp h with ⟨r, hr, hpr⟩
    refine List.any_eq_true.mpr ⟨updateFileRow cHash fileSize now fd r,
      List.mem_map_of_mem _ hr, ?_⟩
    rw [updateFileRow_file_id]
    exact hpr
  · rw [if_neg h]
    refine List.any_eq_true.mpr ⟨newFileRow cHash fileSize now fd, ?_, ?_⟩
    · simp
    · simp [newFileRow]

theorem upsertFileRow_fields (cHash : ContentPayload → String)
    (fileSize now : Int) (fd : FileData) (files : List FileRow)
    (r : FileRow) (hr : r ∈ upsertFileRow cHash fileSize now fd files)
    (hid : (r.file_id == fd.file_id) = true) :
    r.file_name = fd.file_name ∧ r.file_type = fd.content.ctype ∧
    r.modified_time = fd.modified_time ∧ r.processed_time = fd.processed_time ∧
    r.total_slides = fd.content.total_slides ∧ r.total_pages = fd.content.total_pages ∧
    r.file_size = fileSize ∧ r.content_hash = cHash fd.content := by
  unfold upsertFileRow at hr
  by_cases h : files.any (fun r => r.file_id == fd.file_id)
  · rw [if_pos h] at hr
    rcases List.mem_map.mp hr with ⟨r0, _, rfl⟩
    unfold updateFileRow at hid ⊢
    by_cases h0 : r0.file_id == fd.file_id
    · simp [h0]
    · simp [h0] at hid
  · rw [if_neg h] at hr
    rcases List.mem_append.mp hr with hr0 | hr0
    · exact absurd hid ((List.any_eq_false.mp (Bool.not_eq_true _ ▸ h)) r hr0)
    · rcases List.mem_singleton.mp hr0 with rfl
      simp [newFileRow]

theorem fileRowObs_updateFileRow (cHash : ContentPayload → String)
    (fileSize t2 : Int) (fd : FileData) (r : FileRow)
    (hfields : (r.file_id == fd.file_id) = true →
      r.file_name = fd.file_name ∧ r.file_type = fd.content.ctype ∧
      r.modified_time = fd.modified_time ∧ r.processed_time = fd.processed_time ∧
      r.total_slides = fd.content.total_slides ∧ r.total_pages = fd.content.total_pages ∧
      r.file_size = fileSize ∧ r.content_hash = cHash fd.content) :
    fileRowObs (updateFileRow cHash fileSize t2 fd r) = fileRowObs r := by
  unfold updateFileRow
  by_cases h : r.file_id == fd.file_id
  · obtain ⟨h1, h2, h3, h4, h5, h6, h7, h8⟩ := hfields h
    simp only [h, if_true, fileRowObs]
    cases r
    simp_all
  · simp [h]

theorem unitRow_file_id (compress : String → β) (fd : FileData) (item : ContentItem) :
    (unitRow compress fd item).file_id = fd.file_id := rfl

theorem storeFile_content_again (compress : String → β)
    (cHash : ContentPayload → String) (fileSize t1 t2 : Int)
    (s : DBState β) (fd : FileData) :
    (storeFile compress cHash fileSize t2
        (storeFile compress cHash fileSize t1 s fd) fd).content
      = (storeFile compress cHash fileSize t1 s fd).content := by
  have hB : (fd.content.content.map (unitRow compress fd)).filter
      (fun r => !(r.file_id == fd.file_id)) = [] := by
    rw [List.filter_eq_nil_iff]
    intro a ha
    rcases List.mem_map.mp ha with ⟨i, _, rfl⟩
    simp [unitRow]
  show (s.content.filter (fun r => !(r.file_id == fd.file_id))
      ++ fd.content.content.map (unitRow compress fd)).filter
        (fun r => !(r.file_id == fd.file_id))
      ++ fd.content.content.map (unitRow compress fd)
    = s.content.filter (fun r => !(r.file_id == fd.file_id))
      ++ fd.content.content.map (unitRow compress fd)
  rw [List.filter_append, hB, List.append_nil, List.filter_filter]
  simp

/-- C5: `store_file` is idempotent. Running it twice with the identical
`file_data` (and the same deterministic hash and file-size environment)
leaves the same unit rows — count, texts, ordinals — and the same file
metadata as running it once; only `updated_at` moves, to the second call's
clock. -/
theorem storeFile_idempotent (compress : String → β)
    (cHash : ContentPayload → String) (fileSize t1 t2 : Int)
    (s : DBState β) (fd : FileData) :
    (storeFile compress cHash fileSize t2
        (storeFile compress cHash fileSize t1 s fd) fd).content
      = (storeFile compress cHash fileSize t1 s fd).content
    ∧ (storeFile compress cHash fileSize t2
        (storeFile compress cHash fileSize t1 s fd) fd).files.map fileRowObs
      = (storeFile compress cHash fileSize t1 s fd).files.map fileRowObs
    ∧ ((storeFile compress cHash fileSize t2
        (storeFile compress cHash fileSize t1 s fd) fd).files.find?
          (fun r => r.file_id == fd.file_id)).map (fun r => r.updated_at)
      = some t2 := by
  set s1 := storeFile compress cHash fileSize t1 s fd with hs1
  have hany : s1.files.any (fun r => r.file_id == fd.file_id) = true := by
    rw [hs1]
    exact any_upsertFileRow cHash fileSize t1 fd s.files
  have hfiles2 : (storeFile compress cHash fileSize t2 s1 fd).files
      = s1.files.map (updateFileRow cHash fileSize t2 fd) := by
    unfold storeFile upsertFileRow
    simp only [hany, if_true]
  refine ⟨?_, ?_, ?_⟩
  · exact storeFile_content_again compress cHash fileSize t1 t2 s fd
  · rw [hfiles2, List.map_map]
    refine List.map_congr_left (fun r hr => ?_)
    have hrup : r ∈ upsertFileRow cHash fileSize t1 fd s.files := by
      rw [hs1] at hr
      exact hr
    exact fileRowObs_updateFileRow cHash fileSize t2 fd r
      (fun hid => upsertFileRow_fields cHash fileSize t1 fd s.files r hrup hid)
  · rw [hfiles2]
    rw [List.find?_map]
    have hcomp : ((fun r : FileRow => r.file_id == fd.file_id)
        ∘ updateFileRow cHash fileSize t2 fd) = fun r => r.file_id == fd.file_id := by
      funext r
      simp [Function.comp, updateFileRow_file_id]
    rw [hcomp]
    rcases List.any_eq_true.mp hany with ⟨r, hrmem, hpr⟩
    have hsome : (s1.files.find? (fun r => r.file_id == fd.file_id)).isSome :=
      List.find?_isSome.mpr ⟨r, hrmem, hpr⟩
    rcases Option.isSome_iff_exists.mp hsome with ⟨r0, hr0⟩
    have hpr0' := List.find?_some hr0
    have hpr0 : (r0.file_id == fd.file_id) = true := hpr0'
    rw [hr0]
    show some ((updateFileRow cHash fileSize t2 fd r0).updated_at) = some t2
    unfold updateFileRow
    rw [if_pos hpr0]

/-! ## Content store claims: read ordering and round-tripping -/

theorem nullsLastLE_total (a b : Option Int) :
    nullsLastLE a b = true ∨ nullsLastLE b a = true := by
  cases a <;> cases b <;> (simp [nullsLastLE]; try omega)

theorem nullsLastLE_trans (a b c : Option Int) :
    nullsLastLE a b = true → nullsLastLE b c = true → nullsLastLE a c = true := by
  cases a <;> cases b <;> cases c <;> (simp [nullsLastLE]; try omega)

/-- C6: a `get_file` response lists the file's units in ascending order of
their ordinal — `COALESCE(slide_number, page_number)`, nulls last — and
those units are exactly the stored rows of the file id (as a permutation),
whatever order they were inserted in. -/
theorem getFile_ordered (decompress : β → String) (s : DBState β) (fid : String)
    (out : GetFileOut) (h : getFile decompress s fid = some out) :
    out.content.Pairwise (fun a b => nullsLastLE (unitOrd a) (unitOrd b) = true)
    ∧ List.Perm out.content
        ((s.content.filter (fun r => r.file_id == fid)).map (fun r =>
          (⟨r.slide_number, r.page_number, decompress r.text_compressed⟩ : UnitOut))) := by
  unfold getFile at h
  cases hfind : s.files.find? (fun r => r.file_id == fid) with
  | none =>
    rw [hfind] at h
    exact absurd h (by simp)
  | some fr =>
    rw [hfind] at h
    have hout := Option.some.inj h
    subst hout
    constructor
    · refine List.Pairwise.map _ (fun a b hab => hab) ?_
      exact pairwise_sortBy _
        (fun a b => nullsLastLE_total (rowOrd a) (rowOrd b))
        (fun a b c => nullsLastLE_trans (rowOrd a) (rowOrd b) (rowOrd c))
        _
    · exact (perm_sortBy _ _).map _

/-- Witness for C6: in `exDb` the two units of `F` were inserted with
slide 2 first; `get_file` returns them as slide 1 then slide 2. -/
theorem getFile_ordered_witness :
    getFile (fun t => t) exDb "F" = some exGetOut
    ∧ exGetOut.content.Pairwise (fun a b => nullsLastLE (unitOrd a) (unitOrd b) = true) := by
  have h : getFile (fun t : String => t) exDb "F" = some exGetOut := by rfl
  exact ⟨h, (getFile_ordered (fun t : String => t) exDb "F" exGetOut h).1⟩

theorem storeFile_content_filter_self (compress : String → β)
    (cHash : ContentPayload → String) (fileSize now : Int)
    (s : DBState β) (fd : FileData) :
    (storeFile compress cHash fileSize now s fd).content.filter
        (fun r => r.file_id == fd.file_id)
      = fd.content.content.map (unitRow compress fd) := by
  show ((s.content.filter (fun r => !(r.file_id == fd.file_id))
      ++ fd.content.content.map (unitRow compress fd)).filter
        (fun r => r.file_id == fd.file_id))
    = fd.content.content.map (unitRow compress fd)
  rw [List.filter_append, List.filter_filter]
  have h1 : s.content.filter
      (fun a => (a.file_id == fd.file_id) && !(a.file_id == fd.file_id)) = [] := by
    rw [List.filter_eq_nil_iff]
    intro a _
    cases ha : a.file_id == fd.file_id <;> simp [ha]
  have h2 : (fd.content.content.map (unitRow compress fd)).filter
      (fun r => r.file_id == fd.file_id) = fd.content.content.map (unitRow compress fd) := by
    rw [List.filter_eq_self]
    intro a ha
    rcases List.mem_map.mp ha with ⟨i, _, rfl⟩
    simp [unitRow]
  rw [h1, h2, List.nil_append]

/-- C10: after a successful `store_file` on a store whose rows already
satisfy the cross-column invariant, every stored unit row still satisfies
it — its compressed text decompresses to `text_uncompressed` and
`text_length` is that text's length — and `get_file` of the id returns
exactly the upserted texts with their ordinals. The zlib round-trip
`decompress (compress t) = t` is the compression library's contract,
stated as the hypothesis `hrt`. -/
theorem storeFile_roundTrip (compress : String → β) (decompress : β → String)
    (cHash : ContentPayload → String) (fileSize now : Int)
    (s : DBState β) (fd : FileData)
    (hrt : ∀ t, decompress (compress t) = t)
    (hs : ∀ r ∈ s.content, rowInv decompress r) :
    (∀ r ∈ (storeFile compress cHash fileSize now s fd).content, rowInv decompress r)
    ∧ ∃ out, getFile decompress (storeFile compress cHash fileSize now s fd) fd.file_id
          = some out
        ∧ List.Perm out.content (fd.content.content.map (fun i =>
            (⟨i.slide_number, i.page_number, i.text⟩ : UnitOut))) := by
  constructor
  · intro r hr
    have hr' : r ∈ s.content.filter (fun r => !(r.file_id == fd.file_id))
        ++ fd.content.content.map (unitRow compress fd) := hr
    rcases List.mem_append.mp hr' with hA | hB
    · exact hs r (List.mem_of_mem_filter hA)
    · rcases List.mem_map.mp hB with ⟨i, _, rfl⟩
      exact ⟨hrt i.text, rfl⟩
  · have hanyf : (storeFile compress cHash fileSize now s fd).files.any
        (fun r => r.file_id == fd.file_id) = true :=
      any_upsertFileRow cHash fileSize now fd s.files
    rcases List.any_eq_true.mp hanyf with ⟨r, hrm, hpr⟩
    have hsome : ((storeFile compress cHash fileSize now s fd).files.find?
        (fun r => r.file_id == fd.file_id)).isSome :=
      List.find?_isSome.mpr ⟨r, hrm, hpr⟩
    rcases Option.isSome_iff_exists.mp hsome with ⟨fr, hfr⟩
    refine ⟨_, by unfold getFile; rw [hfr], ?_⟩
    rw [storeFile_content_filter_self compress cHash fileSize now s fd]
    refine ((perm_sortBy _ _).map _).trans ?_
    rw [List.map_map]
    refine List.Perm.of_eq (List.map_congr_left fun i _ => ?_)
    simp [Function.comp, unitRow, hrt]

/-- Witness for C10: upserting the two-slide example payload into an empty
store (with the identity as the compression pair) yields rows satisfying
the invariant, and `get_file` returns the two slides' texts. -/
theorem storeFile_roundTrip_witness :
    (∀ r ∈ (storeFile (fun t : String => t) exHash 7 99
        { files := [], content := [] } exFd).content, rowInv (fun t => t) r)
    ∧ ∃ out, getFile (fun t => t) (storeFile (fun t : String => t) exHash 7 99
          { files := [], content := [] } exFd) exFd.file_id = some out
        ∧ List.Perm out.content (exFd.content.content.map (fun i =>
            (⟨i.slide_number, i.page_number, i.text⟩ : UnitOut))) :=
  storeFile_roundTrip (fun t : String => t) (fun t => t) exHash 7 99
    { files := [], content := [] } exFd (fun _ => rfl)
    (fun r hr => absurd hr (List.not_mem_nil r))

/-! ## Content store claims: search -/

theorem joinRow_eq_of_find (tsMatch : String → String → Bool)
    (files : List FileRow) (q : String) (c : ContentRow β) (f : FileRow)
    (hfind : files.find? (fun g => g.file_id == c.file_id) = some f) :
    joinRow tsMatch files q c
      = if tsMatch q c.text_uncompressed then some (f, c) else none := by
  unfold joinRow
  rw [hfind]

theorem joinRow_eq_of_find_none (tsMatch : String → String → Bool)
    (files : List FileRow) (q : String) (c : ContentRow β)
    (hfind : files.find? (fun g => g.file_id == c.file_id) = none) :
    joinRow tsMatch files q c = none := by
  unfold joinRow
  rw [hfind]

theorem matchRows_mem (tsMatch : String → String → Bool) (s : DBState β) (q : String)
    (p : FileRow × ContentRow β) (hp : p ∈ matchRows tsMatch s q) :
    p.1 ∈ s.files ∧ p.2.file_id = p.1.file_id
      ∧ tsMatch q p.2.text_uncompressed = true := by
  rcases List.mem_filterMap.mp hp with ⟨c, _, hc⟩
  cases hfind : s.files.find? (fun f => f.file_id == c.file_id) with
  | none =>
    rw [joinRow_eq_of_find_none tsMatch s.files q c hfind] at hc
    exact absurd hc (by simp)
  | some f =>
    rw [joinRow_eq_of_find tsMatch s.files q c f hfind] at hc
    by_cases hts : tsMatch q c.text_uncompressed
    · rw [if_pos hts] at hc
      rcases Option.some.inj hc with rfl
      have hface := List.find?_some hfind
      refine ⟨List.mem_of_find?_eq_some hfind, ?_, hts⟩
      have hfc : f.file_id = c.file_id := by simpa using hface
      exact hfc.symm
    · rw [if_neg hts] at hc
      exact absurd hc (by simp)

theorem find?_eq_some_self_of_pairwise_ne (files : List FileRow)
    (hid : files.Pairwise (fun a b => a.file_id ≠ b.file_id))
    (f : FileRow) (hf : f ∈ files) :
    files.find? (fun g => g.file_id == f.file_id) = some f := by
  induction files with
  | nil => cases hf
  | cons x xs ih =>
    rcases hid with _ | ⟨hx, hxs⟩
    simp only [List.mem_cons] at hf
    rcases hf with rfl | hf
    · exact List.find?_cons_of_pos _ (by simp)
    · have hxne : ¬ ((fun g : FileRow => g.file_id == f.file_id) x = true) := by
        simpa using hx f hf
      rw [@List.find?_cons_of_neg FileRow (fun g => g.file_id == f.file_id) x xs hxne]
      exact ih hxs hf

theorem matchRows_filter_fileId (tsMatch : String → String → Bool)
    (s : DBState β) (q : String)
    (hid : s.files.Pairwise (fun a b => a.file_id ≠ b.file_id))
    (f : FileRow) (hf : f ∈ s.files) :
    (matchRows tsMatch s q).filter (fun p => p.2.file_id == f.file_id)
      = (s.content.filter (fun c =>
          c.file_id == f.file_id && tsMatch q c.text_uncompressed)).map
            (fun c => (f, c)) := by
  unfold matchRows
  induction s.content with
  | nil => rfl
  | cons c rest ih =>
    rw [List.filterMap_cons, List.filter_cons]
    by_cases hcf : (c.file_id == f.file_id) = true
    · have hceq : c.file_id = f.file_id := by simpa using hcf
      have hfind : s.files.find? (fun g => g.file_id == c.file_id) = some f := by
        rw [show (fun g : FileRow => g.file_id == c.file_id)
            = fun g => g.file_id == f.file_id from funext (fun g => by rw [hceq])]
        exact find?_eq_some_self_of_pairwise_ne s.files hid f hf
      rw [joinRow_eq_of_find tsMatch s.files q c f hfind]
      by_cases hts : tsMatch q c.text_uncompressed
      · rw [if_pos hts, if_pos (by simp [hcf, hts])]
        rw [List.filter_cons, if_pos (by simpa using hcf), List.map_cons]
        exact congrArg (List.cons (f, c)) ih
      · rw [if_neg hts, if_neg (by simp [hts])]
        exact ih
    · have hrhs : (if (c.file_id == f.file_id && tsMatch q c.text_uncompressed) = true
          then c :: List.filter (fun c =>
            c.file_id == f.file_id && tsMatch q c.text_uncompressed) rest
          else List.filter (fun c =>
            c.file_id == f.file_id && tsMatch q c.text_uncompressed) rest)
          = List.filter (fun c =>
            c.file_id == f.file_id && tsMatch q c.text_uncompressed) rest := by
        rw [if_neg (by simp [hcf])]
      rw [hrhs]
      cases hfind : s.files.find? (fun g => g.file_id == c.file_id) with
      | none =>
        rw [joinRow_eq_of_find_none tsMatch s.files q c hfind]
        exact ih
      | some f' =>
        rw [joinRow_eq_of_find tsMatch s.files q c f' hfind]
        by_cases hts : tsMatch q c.text_uncompressed
        · rw [if_pos hts, List.filter_cons, if_neg (by simpa using hcf)]
          exact ih
        · rw [if_neg hts]
          exact ih

theorem matchRows_filter_key_eq_fileId (tsMatch : String → String → Bool)
    (s : DBState β) (q : String)
    (hid : s.files.Pairwise (fun a b => a.file_id ≠ b.file_id))
    (ht : s.files.Pairwise (fun a b => a.modified_time ≠ b.modified_time))
    (f : FileRow) (hf : f ∈ s.files) :
    (matchRows tsMatch s q).filter
        (fun p => decide (p.1.modified_time = f.modified_time))
      = (matchRows tsMatch s q).filter (fun p => p.2.file_id == f.file_id) := by
  refine List.filter_congr (fun p hp => ?_)
  rcases matchRows_mem tsMatch s q p hp with ⟨hpf, hpid, _⟩
  by_cases hteq : p.1.modified_time = f.modified_time
  · have hpe : p.1 = f := eq_of_pairwise_key ht hpf hf hteq
    simp [hteq, hpid, hpe]
  · have hne : ¬ (p.2.file_id == f.file_id) = true := by
      intro hb
      have hideq : p.1.file_id = f.file_id := by
        rw [← hpid]
        simpa using hb
      exact hteq (congrArg FileRow.modified_time (eq_of_pairwise_key hid hpf hf hideq))
    simp [hteq, hne]

theorem sorted_split_by_key (k : α → Int) (t : Int) (m : List α)
    (hm : m.Pairwise (fun a b => k b ≤ k a))
    (hle : ∀ p ∈ m, k p ≤ t) :
    m = m.filter (fun p => decide (k p = t))
      ++ m.filter (fun p => !(decide (k p = t))) := by
  induction m with
  | nil => rfl
  | cons x xs ih =>
    rcases hm with _ | ⟨hx, hxs⟩
    by_cases hxt : k x = t
    · rw [List.filter_cons, List.filter_cons, if_pos (by simp [hxt]),
        if_neg (by simp [hxt]), List.cons_append]
      exact congrArg (List.cons x)
        (ih hxs (fun p hp => hle p (List.mem_cons_of_mem x hp)))
    · have hxall : ∀ p ∈ xs, ¬ (k p = t) := by
        intro p hp heq
        have h1 := hx p hp
        have h2 := hle x (List.mem_cons_self x xs)
        omega
      have hfeq : xs.filter (fun p => decide (k p = t)) = [] := by
        rw [List.filter_eq_nil_iff]
        intro a ha
        simpa using hxall a ha
      have hfne : xs.filter (fun p => !(decide (k p = t))) = xs := by
        rw [List.filter_eq_self]
        intro a ha
        simpa using hxall a ha
      rw [List.filter_cons, List.filter_cons, if_neg (by simp [hxt]),
        if_pos (by simp [hxt]), hfeq, hfne, List.nil_append]

theorem groupGo_all_ne (cur : SearchFileResult) (m : List (FileRow × ContentRow β))
    (hne : ∀ p ∈ m, p.1.file_id ≠ cur.file_id) :
    groupGo cur m = cur :: groupRows m := by
  cases m with
  | nil => rfl
  | cons p rest =>
    rcases p with ⟨f, c⟩
    have hneq : ¬ (cur.file_id == f.file_id) = true := by
      intro hb
      have hcf : cur.file_id = f.file_id := by simpa using hb
      exact hne (f, c) (List.mem_cons_self _ _) hcf.symm
    simp only [groupGo, hneq, Bool.false_eq_true, if_false]
    rfl

theorem groupGo_block (f : FileRow) (cs : List (ContentRow β))
    (cur : SearchFileResult) (m2 : List (FileRow × ContentRow β))
    (hcur : cur.file_id = f.file_id)
    (hne : ∀ p ∈ m2, p.1.file_id ≠ f.file_id) :
    groupGo cur (cs.map (fun c => (f, c)) ++ m2)
      = { cur with hits := cur.hits ++ cs.map mkMatch } :: groupRows m2 := by
  induction cs generalizing cur with
  | nil =>
    simp only [List.map_nil, List.nil_append]
    rw [groupGo_all_ne cur m2 (fun p hp => by rw [hcur]; exact hne p hp)]
    simp
  | cons c cs' ih =>
    simp only [List.map_cons, List.cons_append, groupGo, List.append_eq]
    rw [if_pos (by simp [hcur])]
    rw [ih { cur with hits := cur.hits ++ [mkMatch c] } hcur]
    simp [List.append_assoc]

theorem groupRows_of_blocks (B : FileRow → List (ContentRow β))
    (fs : List FileRow) (m : List (FileRow × ContentRow β))
    (hfs_t : fs.Pairwise (fun a b => b.modified_time < a.modified_time))
    (hfs_id : fs.Pairwise (fun a b => a.file_id ≠ b.file_id))
    (hm_sorted : m.Pairwise (fun a b => b.1.modified_time ≤ a.1.modified_time))
    (hm_mem : ∀ p ∈ m, p.1 ∈ fs)
    (hB : ∀ f ∈ fs, m.filter (fun p => decide (p.1.modified_time = f.modified_time))
        = (B f).map (fun c => (f, c))) :
    groupRows m = (fs.map (fun f =>
        ({ file_id := f.file_id, file_name := f.file_name,
           hits := (B f).map mkMatch } : SearchFileResult))).filter
      (fun r => !r.hits.isEmpty) := by
  induction fs generalizing m with
  | nil =>
    cases m with
    | nil => rfl
    | cons p m' => exact absurd (hm_mem p (List.mem_cons_self _ _)) (List.not_mem_nil _)
  | cons f rest ih =>
    rcases hfs_t with _ | ⟨hft, hfts⟩
    rcases hfs_id with _ | ⟨hfid, hfids⟩
    have hle : ∀ p ∈ m, p.1.modified_time ≤ f.modified_time := by
      intro p hp
      rcases List.mem_cons.mp (hm_mem p hp) with he | hr
      · rw [he]
      · exact le_of_lt (hft p.1 hr)
    have hsplit := sorted_split_by_key (fun p : FileRow × ContentRow β =>
      p.1.modified_time) f.modified_time m hm_sorted hle
    have hm1B : m.filter (fun p => decide (p.1.modified_time = f.modified_time))
        = (B f).map (fun c => (f, c)) := hB f (List.mem_cons_self _ _)
    have hm2mem : ∀ p ∈ m.filter (fun p : FileRow × ContentRow β =>
        !(decide (p.1.modified_time = f.modified_time))), p.1 ∈ rest := by
      intro p hp
      have hpm : p ∈ m := List.mem_of_mem_filter hp
      have hpne : ¬ (p.1.modified_time = f.modified_time) := by
        have := List.of_mem_filter hp
        simpa using this
      rcases List.mem_cons.mp (hm_mem p hpm) with he | hr
      · exact absurd (by rw [he]) hpne
      · exact hr
    have hm2sorted : (m.filter (fun p : FileRow × ContentRow β =>
        !(decide (p.1.modified_time = f.modified_time)))).Pairwise
          (fun a b => b.1.modified_time ≤ a.1.modified_time) :=
      hm_sorted.sublist (List.filter_sublist _)
    have hm2B : ∀ g ∈ rest, (m.filter (fun p : FileRow × ContentRow β =>
        !(decide (p.1.modified_time = f.modified_time)))).filter
          (fun p => decide (p.1.modified_time = g.modified_time))
        = (B g).map (fun c => (g, c)) := by
      intro g hg
      rw [← hB g (List.mem_cons_of_mem f hg)]
      conv_rhs => rw [hsplit]
      rw [List.filter_append]
      have h1 : (m.filter (fun p : FileRow × ContentRow β =>
          decide (p.1.modified_time = f.modified_time))).filter
            (fun p => decide (p.1.modified_time = g.modified_time)) = [] := by
        rw [List.filter_eq_nil_iff]
        intro p hp
        have hpt : p.1.modified_time = f.modified_time := by
          have := List.of_mem_filter hp
          simpa using this
        have hgt : g.modified_time < f.modified_time := hft g hg
        simp
        omega
      rw [h1, List.nil_append]
    have hm2ne : ∀ p ∈ m.filter (fun p : FileRow × ContentRow β =>
        !(decide (p.1.modified_time = f.modified_time))), p.1.file_id ≠ f.file_id := by
      intro p hp he
      exact hfid p.1 (hm2mem p hp) he.symm
    have hmeq : m = (B f).map (fun c => (f, c))
        ++ m.filter (fun p : FileRow × ContentRow β =>
          !(decide (p.1.modified_time = f.modified_time))) := by
      conv_lhs => rw [hsplit]
      rw [hm1B]
    rw [hmeq]
    cases hBf : B f with
    | nil =>
      simp only [List.map_nil, List.nil_append]
      rw [ih _ hfts hfids hm2sorted hm2mem hm2B]
      rw [List.map_cons, List.filter_cons]
      rw [if_neg (by simp [hBf])]
    | cons c0 cs =>
      simp only [List.map_cons, List.cons_append]
      show groupGo { file_id := f.file_id, file_name := f.file_name, hits := [mkMatch c0] } (cs.map (fun c => (f, c)) ++ m.filter (fun p : FileRow × ContentRow β => !(decide (p.1.modified_time = f.modified_time)))) = _
      rw [groupGo_block f cs { file_id := f.file_id, file_name := f.file_name, hits := [mkMatch c0] } _ rfl hm2ne]
      rw [ih _ hfts hfids hm2sorted hm2mem hm2B]
      rw [List.filter_cons]
      rw [if_pos (by simp [hBf])]
      rw [hBf]
      simp

theorem searchSpecAmended_mapCompressed (tsMatch : String → String → Bool)
    (g : β → β) (s : DBState β) (q : String) :
    searchSpecAmended tsMatch (mapCompressed g s) q
      = searchSpecAmended tsMatch s q := by
  unfold searchSpecAmended mapCompressed
  simp only
  refine congrArg (List.filter _) ?_
  refine List.map_congr_left (fun f _ => ?_)
  have hcomm : ((s.content.map (fun c =>
      { c with text_compressed := g c.text_compressed })).filter (fun c =>
        c.file_id == f.file_id && tsMatch q c.text_uncompressed)).map mkMatch
      = (s.content.filter (fun c =>
        c.file_id == f.file_id && tsMatch q c.text_uncompressed)).map mkMatch := by
    rw [List.filter_map, List.map_map]
    rfl
  rw [hcomm]

/-- C7 (amended): for a store whose file rows have pairwise-distinct
`file_id`s (the `files` primary-key invariant) and pairwise-distinct
`modified_time`s — both conditions are part of the amended claim, and the
second is forced by the counterexample's tied-time store, where one file
comes back as several groups — `search_content` returns exactly the
matching files in recency (modified-time, descending) order, each with its
matching units in storage (insertion) order — not in ascending ordinal
order, which the counterexample also refutes — and the result is invariant
under arbitrary rewriting of every row's compressed payload: matching
reads only the plain uncompressed projection. -/
theorem searchContent_grouped_recency (tsMatch : String → String → Bool)
    (s : DBState β) (q : String)
    (hid : s.files.Pairwise (fun a b => a.file_id ≠ b.file_id))
    (ht : s.files.Pairwise (fun a b => a.modified_time ≠ b.modified_time)) :
    searchContent tsMatch s q = searchSpecAmended tsMatch s q
    ∧ ∀ g : β → β,
        searchContent tsMatch (mapCompressed g s) q = searchContent tsMatch s q := by
  have main : ∀ (s' : DBState β),
      s'.files.Pairwise (fun a b => a.file_id ≠ b.file_id) →
      s'.files.Pairwise (fun a b => a.modified_time ≠ b.modified_time) →
      searchContent tsMatch s' q = searchSpecAmended tsMatch s' q := by
    intro s' hid' ht'
    unfold searchContent searchSpecAmended
    have hsymm_t : ∀ {a b : FileRow}, a.modified_time ≠ b.modified_time →
        b.modified_time ≠ a.modified_time := fun h => Ne.symm h
    have hsymm_id : ∀ {a b : FileRow}, a.file_id ≠ b.file_id →
        b.file_id ≠ a.file_id := fun h => Ne.symm h
    have hperm := perm_sortBy (descBy (fun f : FileRow => f.modified_time)) s'.files
    have ht2 : (sortBy (descBy (fun f : FileRow => f.modified_time)) s'.files).Pairwise
        (fun a b => a.modified_time ≠ b.modified_time) :=
      (hperm.pairwise_iff hsymm_t).mpr ht'
    have hsorted : (sortBy (descBy (fun f : FileRow => f.modified_time)) s'.files).Pairwise
        (fun a b => descBy (fun f : FileRow => f.modified_time) a b = true) :=
      pairwise_sortBy _ (descBy_total _) (descBy_trans _) _
    refine groupRows_of_blocks _ _ _ ?_ ?_ ?_ ?_ ?_
    · refine (hsorted.and ht2).imp ?_
      intro a b hab
      rcases hab with ⟨hle, hne⟩
      simp only [descBy, decide_eq_true_eq] at hle
      omega
    · exact (hperm.pairwise_iff hsymm_id).mpr hid'
    · refine (pairwise_sortBy _ (descBy_total _) (descBy_trans _) _).imp ?_
      intro a b hab
      simpa [descBy] using hab
    · intro p hp
      have hpm : p ∈ matchRows tsMatch s' q :=
        (perm_sortBy _ _).mem_iff.mp hp
      exact hperm.mem_iff.mpr (matchRows_mem tsMatch s' q p hpm).1
    · intro f hf
      have hfm : f ∈ s'.files := hperm.mem_iff.mp hf
      rw [filter_key_sortBy (fun p : FileRow × ContentRow β => p.1.modified_time)
        (matchRows tsMatch s' q) f.modified_time]
      rw [matchRows_filter_key_eq_fileId tsMatch s' q hid' ht' f hfm]
      exact matchRows_filter_fileId tsMatch s' q hid' f hfm
  refine ⟨main s hid ht, fun g => ?_⟩
  rw [main (mapCompressed g s) hid ht, searchSpecAmended_mapCompressed]
  exact (main s hid ht).symm

/-- C7 (counterexample): two failures of the claim at concrete stores.
First, in `exDb` the two units of file `F` are stored with slide 2 before
slide 1 and both match the query `apple` under a prefix matcher;
`search_content` orders only by `f.modified_time DESC`, so the single
returned group lists the matches as slide 2 then slide 1 —
`nullsLastLE (some 2) (some 1) = false` — refuting ascending ordinal order
within a file. Second, in `exTieDb` the files `F` and `B` are tied on
`modified_time` and `F`'s rows are interleaved with `B`'s in the table;
`ORDER BY f.modified_time DESC` gives no guarantee within the tie (the
model's stable sort keeps table order), and the consecutive-`file_id`
grouping loop then returns file `F` as two separate groups — result file
ids `[F, B, F]` — refuting even "grouped by file" when modified times
tie. -/
theorem searchContent_not_ordinal_ordered :
    ((searchContent (fun q t => q.data.isPrefixOf t.data) exDb "apple").map
        (fun r => r.hits.map (fun u => u.slide_number))) = [[some 2, some 1]]
    ∧ nullsLastLE (some 2) (some 1) = false
    ∧ ((searchContent (fun q t => q.data.isPrefixOf t.data) exTieDb "apple").map
        (fun r => r.file_id)) = ["F", "B", "F"] := by
  exact ⟨rfl, rfl, rfl⟩

/-- Witness for C7 (amended) at the example store: the hypotheses hold and
`search_content` agrees with the amended reference result. -/
theorem searchContent_grouped_recency_witness :
    exDb.files.Pairwise (fun a b => a.file_id ≠ b.file_id)
    ∧ searchContent (fun q t => q.data.isPrefixOf t.data) exDb "apple"
        = searchSpecAmended (fun q t => q.data.isPrefixOf t.data) exDb "apple" := by
  refine ⟨by decide, ?_⟩
  exact (searchContent_grouped_recency (fun q t => q.data.isPrefixOf t.data)
    exDb "apple" (by decide) (by decide)).1

end RhettAI
